import Mathlib

/-!
Verification development for the BFI Southbank screening scraper
(`bfi_calendar.py`).  The Python source is shallowly embedded: pure
functions become Lean functions, fallible code returns `Option`/`Except`,
and the stateful cookie-store access is modelled by explicit state
passing.  Python's machine-independent integers are modelled by `Int`
(or `Nat` where the source guarantees non-negativity).
-/

/-! ## String primitives

Python string operations used by the scraper, modelled over `String`
(`structure String where data : List Char`).  `pyStrip` models
`str.strip()` on the six ASCII whitespace characters Python strips;
`pySplit` models `str.split(sep)` for a one-character separator;
`pySlice` models `s[a:b]`; `pyInt` models `int(s)` on ASCII digit
strings with an optional sign and surrounding whitespace. -/

def isPySpace (c : Char) : Bool :=
  c == ' ' || c == '\t' || c == '\n' || c == '\r' || c == '\x0b' || c == '\x0c'

def stripRight (l : List Char) : List Char :=
  (l.reverse.dropWhile isPySpace).reverse

def pyStripL (l : List Char) : List Char :=
  stripRight (l.dropWhile isPySpace)

def pyStrip (s : String) : String :=
  ⟨pyStripL s.data⟩

/-- Split a character list at every occurrence of `sep`, like Python's
`str.split(sep)` for a single-character separator (so `""` splits to
`[""]`, and empty fields are kept). -/
def splitChar (sep : Char) : List Char → List (List Char)
  | [] => [[]]
  | c :: rest =>
    if c = sep then [] :: splitChar sep rest
    else
      match splitChar sep rest with
      | [] => [[c]]
      | p :: ps => (c :: p) :: ps

/-- Join with a separator character, like Python's `sep.join(parts)`. -/
def joinChar (sep : Char) : List (List Char) → List Char
  | [] => []
  | [p] => p
  | p :: ps => p ++ sep :: joinChar sep ps

def pySplit (s : String) (sep : Char) : List String :=
  (splitChar sep s.data).map String.mk

def pySlice (s : String) (a b : Nat) : String :=
  ⟨(s.data.drop a).take (b - a)⟩

/-- Value of a non-empty all-ASCII-digit character list; `none` otherwise.
This is the guard `str.isdigit()` together with the value `int(s)` takes
on such a string. -/
def pyIntDigits (l : List Char) : Option Nat :=
  if !l.isEmpty && l.all Char.isDigit then
    some (l.foldl (fun n c => n * 10 + (c.toNat - 48)) 0)
  else none

/-- Python's `int(s)`: strip whitespace, optional sign, then digits. -/
def pyInt (s : String) : Option Int :=
  match pyStripL s.data with
  | [] => none
  | c :: rest =>
    if c = '+' then (pyIntDigits rest).map Int.ofNat
    else if c = '-' then (pyIntDigits rest).map (fun n => -(n : Int))
    else (pyIntDigits (c :: rest)).map Int.ofNat

def isPrefixB : List Char → List Char → Bool
  | [], _ => true
  | _ :: _, [] => false
  | a :: as, b :: bs => a == b && isPrefixB as bs

def containsAux (n : List Char) : List Char → Bool
  | [] => isPrefixB n []
  | c :: t => isPrefixB n (c :: t) || containsAux n t

/-- Python's substring test `needle in hay`. -/
def containsSub (needle hay : String) : Bool :=
  containsAux needle.data hay.data

/-- Models the stdlib `html.unescape` call restricted to the named and
numeric entities that occur in this data source; every other `&` is
passed through unchanged, as the stdlib does for unrecognised entities. -/
def htmlUnescapeGo : List Char → List Char
  | [] => []
  | '&' :: 'a' :: 'm' :: 'p' :: ';' :: rest => '&' :: htmlUnescapeGo rest
  | '&' :: 'l' :: 't' :: ';' :: rest => '<' :: htmlUnescapeGo rest
  | '&' :: 'g' :: 't' :: ';' :: rest => '>' :: htmlUnescapeGo rest
  | '&' :: 'q' :: 'u' :: 'o' :: 't' :: ';' :: rest =>
    Char.ofNat 34 :: htmlUnescapeGo rest
  | '&' :: '#' :: '3' :: '9' :: ';' :: rest =>
    Char.ofNat 39 :: htmlUnescapeGo rest
  | c :: rest => c :: htmlUnescapeGo rest

def htmlUnescape (s : String) : String :=
  ⟨htmlUnescapeGo s.data⟩

/-! ## Data model (`bfi_calendar.py` lines 92-233) -/

/-- Source `normalise_venue_short`: collapse known venue-short aliases. -/
def normalise_venue_short (short : String) : String :=
  if short = "" then ""
  else
    let s := pyStrip short
    if s = "Southbank NFT2 GA" ∨ s = "NFT2 GA" then "NFT2" else s

def UNWANTED_KEYWORDS : List String :=
  ["Closed captions", "Releases", "Audio description", "English subtitles",
   "Descriptive subtitles (open captions)", "Previews",
   "Relaxed (sensory) screenings"]

/-- Source `filter_keywords`: remove platform-level metadata keywords. -/
def filter_keywords (keywords : List String) : List String :=
  keywords.filter (fun k => !(UNWANTED_KEYWORDS.contains (pyStrip k)))

inductive Availability where
  | EXCELLENT | GOOD | LIMITED | SOLD_OUT | UNKNOWN
deriving DecidableEq, Repr

def Availability.value : Availability → String
  | .EXCELLENT => "E"
  | .GOOD => "G"
  | .LIMITED => "L"
  | .SOLD_OUT => "S"
  | .UNKNOWN => "?"

/-- Source `Availability.from_code`: first member whose value matches, else UNKNOWN. -/
def Availability.from_code (code : String) : Availability :=
  if code = "E" then .EXCELLENT
  else if code = "G" then .GOOD
  else if code = "L" then .LIMITED
  else if code = "S" then .SOLD_OUT
  else if code = "?" then .UNKNOWN
  else .UNKNOWN

inductive SalesStatus where
  | ON_SALE | NOT_ON_SALE | UNKNOWN
deriving DecidableEq, Repr

def SalesStatus.value : SalesStatus → String
  | .ON_SALE => "S"
  | .NOT_ON_SALE => "N"
  | .UNKNOWN => "?"

/-- Source `SalesStatus.from_code`: first member whose value matches, else UNKNOWN. -/
def SalesStatus.from_code (code : String) : SalesStatus :=
  if code = "S" then .ON_SALE
  else if code = "N" then .NOT_ON_SALE
  else if code = "?" then .UNKNOWN
  else .UNKNOWN

/-- A screening venue (dataclass `Venue`).  The generated dataclass
equality compares all three fields; only `__hash__` is overridden. -/
structure Venue where
  id : String
  name : String
  short_name : String
deriving DecidableEq, Repr

/-- The dataclass-generated `__eq__` of `Venue`: field-wise comparison. -/
def venue_eq (a b : Venue) : Bool :=
  a.id == b.id && a.name == b.name && a.short_name == b.short_name

/-- Source `Venue.__hash__` is `hash(self.id)`: the (opaque) Python string hash,
passed in as `h`, applied to the identifier alone. -/
def venue_hash (h : String → Nat) (v : Venue) : Nat :=
  h v.id

/-- A `datetime.datetime` value as constructed by the scraper (seconds
and microseconds are always zero, so they are omitted). -/
structure DateTime where
  year : Int
  month : Int
  day : Int
  hour : Int
  minute : Int
deriving DecidableEq, Repr

def isLeapYear (y : Int) : Bool :=
  (y % 4 == 0 && !(y % 100 == 0)) || y % 400 == 0

def daysInMonth (y m : Int) : Int :=
  if m = 2 then (if isLeapYear y then 29 else 28)
  else if m = 4 ∨ m = 6 ∨ m = 9 ∨ m = 11 then 30
  else 31

/-- Constructor `datetime.datetime(y, mo, d, h, mi)`: validates the ranges the
constructor checks and fails (ValueError) outside them. -/
def mkDatetime (y mo d h mi : Int) : Option DateTime :=
  if 1 ≤ y ∧ y ≤ 9999 ∧ 1 ≤ mo ∧ mo ≤ 12 ∧ 1 ≤ d ∧ d ≤ daysInMonth y mo
      ∧ 0 ≤ h ∧ h ≤ 23 ∧ 0 ≤ mi ∧ mi ≤ 59 then
    some ⟨y, mo, d, h, mi⟩
  else none

/-- Python's `datetime` comparison on the components the scraper sets
(lexicographic on year, month, day, hour, minute). -/
def dtleB (a b : DateTime) : Bool :=
  decide (a.year < b.year ∨ (a.year = b.year ∧
    (a.month < b.month ∨ (a.month = b.month ∧
      (a.day < b.day ∨ (a.day = b.day ∧
        (a.hour < b.hour ∨ (a.hour = b.hour ∧ a.minute ≤ b.minute))))))))

/-- A single film screening (dataclass `Screening`). -/
structure Screening where
  id : String
  title : String
  datetime : DateTime
  venue : Venue
  availability : Availability
  sales_status : SalesStatus
  seats_available : Option Int := none
  keywords : List String := []
  min_price : Option String := none
  max_price : Option String := none
  article_url : Option String := none
deriving DecidableEq, Repr

/-- The JSON object written by `Screening.to_dict` / read by
`Screening.from_dict`.  The date-time is held as the value itself since
`datetime.fromisoformat (d.isoformat())` reconstructs `d` exactly, and
the remaining fields are JSON scalars/lists that round-trip unchanged. -/
structure ScreeningDict where
  id : String
  title : String
  datetime : DateTime
  venue_id : String
  venue_name : String
  venue_short : String
  availability : String
  sales_status : String
  seats_available : Option Int
  keywords : List String
  min_price : Option String
  max_price : Option String
  article_url : Option String
deriving DecidableEq, Repr

/-- Source `Screening.to_dict`: serialise for JSON storage. -/
def Screening.to_dict (s : Screening) : ScreeningDict :=
  { id := s.id
    title := s.title
    datetime := s.datetime
    venue_id := s.venue.id
    venue_name := s.venue.name
    venue_short := s.venue.short_name
    availability := s.availability.value
    sales_status := s.sales_status.value
    seats_available := s.seats_available
    keywords := s.keywords
    min_price := s.min_price
    max_price := s.max_price
    article_url := s.article_url }

/-- Source `Screening.from_dict`: deserialise from JSON storage.  The venue
short name is re-normalised and the keywords re-filtered, exactly as in
the source. -/
def Screening.from_dict (d : ScreeningDict) : Screening :=
  { id := d.id
    title := d.title
    datetime := d.datetime
    venue := { id := d.venue_id, name := d.venue_name,
               short_name := normalise_venue_short d.venue_short }
    availability := Availability.from_code d.availability
    sales_status := SalesStatus.from_code d.sales_status
    seats_available := d.seats_available
    keywords := filter_keywords d.keywords
    min_price := d.min_price
    max_price := d.max_price
    article_url := d.article_url }

/-! ## Field mapping and row decoding (`Fields`, `parse_screening`) -/

def Fields.ID : Nat := 0
def Fields.TITLE : Nat := 5
def Fields.TIME : Nat := 8
def Fields.DAY : Nat := 9
def Fields.MONTH : Nat := 10
def Fields.YEAR : Nat := 11
def Fields.SALES_STATUS : Nat := 14
def Fields.AVAILABILITY : Nat := 15
def Fields.SEATS_AVAILABLE : Nat := 16
def Fields.KEYWORDS : Nat := 17
def Fields.ARTICLE_URL : Nat := 18
def Fields.VENUE_ID : Nat := 62
def Fields.VENUE_NAME : Nat := 63
def Fields.VENUE_SHORT : Nat := 64
def Fields.MIN_PRICE : Nat := 80
def Fields.MAX_PRICE : Nat := 81

/-- The `screening_dt` block of `parse_screening`:
`datetime(int(row[YEAR]), int(row[MONTH]) + 1, int(row[DAY]),
int(row[TIME][:2]), int(row[TIME][3:5]))`.  A missing index is the
IndexError path, a failed `int` the ValueError path; both make the row
decoding fail. -/
def screeningDT (row : List String) : Option DateTime := do
  let ys ← row.get? Fields.YEAR
  let mos ← row.get? Fields.MONTH
  let ds ← row.get? Fields.DAY
  let ts ← row.get? Fields.TIME
  let y ← pyInt ys
  let mo ← pyInt mos
  let d ← pyInt ds
  let h ← pyInt (pySlice ts 0 2)
  let mi ← pyInt (pySlice ts 3 5)
  mkDatetime y (mo + 1) d h mi

/-- Source `parse_screening`: decode one `searchResults` row into a `Screening`.
`row.get? i` is `row[i]` for the required fields (IndexError on a short
row makes the decode fail) and models the explicit `len(row) > i`
guards for the optional fields (absent value, never an error). -/
def parse_screening (row : List String) : Option Screening := do
  let dtv ← screeningDT row
  let idv ← row.get? Fields.ID
  let titleRaw ← row.get? Fields.TITLE
  let salesRaw ← row.get? Fields.SALES_STATUS
  let availRaw ← row.get? Fields.AVAILABILITY
  let keywordsRaw := (row.get? Fields.KEYWORDS).getD ""
  let keywords := filter_keywords
    (((pySplit keywordsRaw ',').map pyStrip).filter (fun k => k ≠ ""))
  let seats := (row.get? Fields.SEATS_AVAILABLE).bind
    (fun sr => (pyIntDigits sr.data).map Int.ofNat)
  pure
    { id := idv
      title := htmlUnescape titleRaw
      datetime := dtv
      venue :=
        { id := (row.get? Fields.VENUE_ID).getD ""
          name := (row.get? Fields.VENUE_NAME).getD ""
          short_name := normalise_venue_short ((row.get? Fields.VENUE_SHORT).getD "") }
      availability := Availability.from_code availRaw
      sales_status := SalesStatus.from_code salesRaw
      seats_available := seats
      keywords := keywords
      min_price := row.get? Fields.MIN_PRICE
      max_price := row.get? Fields.MAX_PRICE
      article_url := row.get? Fields.ARTICLE_URL }

/-! ## Cookie domain resolution (`load_cookies`, lines 360-378)

The domain-list computation inside `load_cookies` is a pure function of
the requested domain; it is factored out here (`domainsGo` over the
characters, `load_cookies_domains` over `String`).  The surrounding
store access is modelled separately by `load_cookies_run`. -/

def twoPartTlds : List (List Char) :=
  ["org.uk".data, "co.uk".data, "ac.uk".data, "gov.uk".data,
   "com.au".data, "co.nz".data, "co.jp".data]

/-- The `domains_to_search` computation: start from
`[domain, "." + domain]`; when the domain has at least two labels,
compute a parent domain (last three labels when the last two form a
known two-part TLD and there are more than three labels, else the last
two labels when there are more than two, else none) and append
`[".parent", parent]` when the parent differs from the domain. -/
def domainsGo (d : List Char) : List (List Char) :=
  let base := [d, '.' :: d]
  let parts := splitChar '.' d
  if 2 ≤ parts.length then
    let potentialTld := joinChar '.' (parts.drop (parts.length - 2))
    let parent : Option (List Char) :=
      if potentialTld ∈ twoPartTlds ∧ 3 < parts.length then
        some (joinChar '.' (parts.drop (parts.length - 3)))
      else if 2 < parts.length then
        some (joinChar '.' (parts.drop (parts.length - 2)))
      else none
    match parent with
    | some p => if p ≠ d then base ++ ['.' :: p, p] else base
    | none => base
  else base

def load_cookies_domains (domain : String) : List String :=
  (domainsGo domain.data).map String.mk

/-! ## Cookie store access (`load_cookies`, lines 353-407)

State-passing model of the temp-copy/query/cleanup sequence.  The file
system is abstracted to whether the private temporary copy of
`cookies.sqlite` exists; the sqlite interaction is abstracted to
whether `sqlite3.connect` succeeds (`connectOk`) and to the outcome of
the `SELECT name, value, host ... IN (...)` query (`query`, a list of
(name, value, host) rows or a decode failure).  The Python code copies
the store, then runs the body inside `try`, whose `finally` block
unlinks the temporary copy if it exists. -/

structure CookieFS where
  tempExists : Bool
deriving DecidableEq, Repr

inductive CookieErr where
  | connectFailed
  | queryFailed
  | noCookies
deriving DecidableEq, Repr

/-- The `cookies[name] = value` loop over the fetched rows: a name seen
again overwrites its value in place (Python dict insertion semantics). -/
def buildCookieMap (rows : List (String × String × String)) : List (String × String) :=
  rows.foldl
    (fun m r =>
      if (m.map Prod.fst).contains r.1 then
        m.map (fun p => if p.1 = r.1 then (r.1, r.2.1) else p)
      else m ++ [(r.1, r.2.1)])
    []

/-- State `tempExists := true` holds after `shutil.copy2`; the `finally` clause
(`if temp_db.exists(): temp_db.unlink()`) runs on every exit of the
`try` body. -/
def cookieCleanup (fs : CookieFS) : CookieFS :=
  if fs.tempExists then { tempExists := false } else fs

/-- The part of `load_cookies` from the `shutil.copy2` call onwards:
returns the result of the `try` body (success or the error it raises)
paired with the final file-system state after `finally`. -/
def load_cookies_run (connectOk : Bool)
    (query : Except Unit (List (String × String × String))) :
    Except CookieErr (List (String × String)) × CookieFS :=
  let afterCopy : CookieFS := { tempExists := true }
  let body : Except CookieErr (List (String × String)) :=
    if !connectOk then .error .connectFailed
    else
      match query with
      | .error _ => .error .queryFailed
      | .ok rows =>
        let cookies := buildCookieMap rows
        if cookies.isEmpty then .error .noCookies else .ok cookies
  (body, cookieCleanup afterCopy)

/-! ## HTML parsing (`extract_search_results`, lines 526-553)

The `re.search` for
`searchResults\s*:\s*\[\s*(.*?)\s*\],\s*searchFilters` (DOTALL) is
modelled operationally: scan for the leftmost position where the
pattern matches, with the lazy capture taking the shortest text whose
continuation matches `\s*\],\s*searchFilters` (so the capture excludes
the surrounding whitespace, as the greedy `\s*` on both sides of the
lazy group forces).  The JSON repair and `json.loads` are modelled for
the shapes this source embeds: arrays of arrays of scalar fields.
String escapes inside fields are not modelled — the blanket
single-to-double-quote substitution in the source is already lossy for
such fields. -/

def skipWsL (l : List Char) : List Char :=
  l.dropWhile isPySpace

/-- Does `\s*\],\s*searchFilters` match at the head of `l`? -/
def tailPat (l : List Char) : Bool :=
  match skipWsL l with
  | ']' :: rest =>
    match rest with
    | ',' :: rest2 => isPrefixB "searchFilters".data (skipWsL rest2)
    | _ => false
  | _ => false

/-- Shortest prefix of `l` whose continuation satisfies `tailPat`
(the lazy `(.*?)` capture). -/
def capSearch (acc : List Char) (l : List Char) : Option (List Char) :=
  if tailPat l then some acc.reverse
  else
    match l with
    | [] => none
    | c :: rest => capSearch (c :: acc) rest

/-- Try to match the full pattern at the head of `l`; on success return
the capture group. -/
def trySR (l : List Char) : Option (List Char) :=
  if isPrefixB "searchResults".data l then
    match skipWsL (l.drop 13) with
    | ':' :: l2 =>
      match skipWsL l2 with
      | '[' :: l3 => capSearch [] (skipWsL l3)
      | _ => none
    | _ => none
  else none

/-- Leftmost match of the `searchResults` pattern anywhere in `l`. -/
def findSR : List Char → Option (List Char)
  | [] => none
  | c :: rest =>
    match trySR (c :: rest) with
    | some cap => some cap
    | none => findSR rest

/-- The `.replace("'", '"')` step of the repair. -/
def quoteFix (l : List Char) : List Char :=
  l.map (fun c => if c = Char.ofNat 39 then Char.ofNat 34 else c)

/-- One `re.sub(",\s*X", "X", ...)` pass for a closing character `X`:
every comma followed by whitespace and `X` collapses to `X`. -/
def subCommaClose (close : Char) : List Char → List Char
  | [] => []
  | c :: rest =>
    if c = ',' then
      match h : skipWsL rest with
      | x :: tail =>
        if x = close then close :: subCommaClose close tail
        else c :: subCommaClose close rest
      | [] => c :: subCommaClose close rest
    else c :: subCommaClose close rest
termination_by l => l.length
decreasing_by
  · have h1 : (skipWsL rest).length ≤ rest.length :=
      (List.dropWhile_sublist isPySpace).length_le
    rw [h] at h1
    simp only [List.length_cons] at h1 ⊢
    omega
  · simp only [List.length_cons]; omega
  · simp only [List.length_cons]; omega
  · simp only [List.length_cons]; omega

/-- One scalar field: a double-quoted string (no escapes) or a bare
numeric token, returned as its text. -/
def jsonScalar : List Char → Option (String × List Char)
  | [] => none
  | c :: rest =>
    if c = Char.ofNat 34 then
      let content := rest.takeWhile (fun x => x ≠ Char.ofNat 34)
      match rest.dropWhile (fun x => x ≠ Char.ofNat 34) with
      | _ :: tail => some (⟨content⟩, tail)
      | [] => none
    else
      let numChar : Char → Bool := fun x => x.isDigit || x = '-' || x = '+' || x = '.'
      let tok := (c :: rest).takeWhile numChar
      if tok.isEmpty then none
      else some (⟨tok⟩, (c :: rest).dropWhile numChar)

/-- Comma-separated scalars up to `]` (the inside of one row). -/
def jsonRowItems (fuel : Nat) (l : List Char) : Option (List String × List Char) :=
  match fuel with
  | 0 => none
  | fuel + 1 =>
    match skipWsL l with
    | ']' :: rest => some ([], rest)
    | l1 =>
      match jsonScalar l1 with
      | none => none
      | some (v, rest) =>
        match skipWsL rest with
        | ',' :: rest2 =>
          match jsonRowItems fuel rest2 with
          | some (vs, r) => some (v :: vs, r)
          | none => none
        | ']' :: rest2 => some ([v], rest2)
        | _ => none

/-- Comma-separated rows up to `]` (the inside of the outer array). -/
def jsonRowSeq (fuel : Nat) (l : List Char) : Option (List (List String) × List Char) :=
  match fuel with
  | 0 => none
  | fuel + 1 =>
    match skipWsL l with
    | ']' :: rest => some ([], rest)
    | '[' :: rest =>
      match jsonRowItems (rest.length + 1) rest with
      | none => none
      | some (row, rest1) =>
        match skipWsL rest1 with
        | ',' :: rest2 =>
          match jsonRowSeq fuel rest2 with
          | some (rows, r) => some (row :: rows, r)
          | none => none
        | ']' :: rest2 => some ([row], rest2)
        | _ => none
    | _ => none

/-- Stdlib `json.loads` on the repaired text, for the array-of-arrays shape the
page embeds; `none` is the `json.JSONDecodeError` path. -/
def jsonLoadRows (l : List Char) : Option (List (List String)) :=
  match skipWsL l with
  | '[' :: rest =>
    match jsonRowSeq (rest.length + 1) rest with
    | some (rows, rest2) => if (skipWsL rest2).isEmpty then some rows else none
    | none => none
  | _ => none

inductive ExtractErr where
  | challenged
deriving DecidableEq, Repr

/-- Source `extract_search_results`: challenge detection, array location,
repair, and parse.  A parse failure after repair is logged and treated
as zero rows, not an error. -/
def extract_search_results (html : String) : Except ExtractErr (List (List String)) :=
  if !(containsSub "articleContext" html) then
    if containsSub "cf-browser-verification" html || containsSub "challenge-platform" html then
      .error .challenged
    else .ok []
  else
    match findSR html.data with
    | none => .ok []
    | some cap =>
      if pyStripL cap = [] then .ok []
      else
        let jtext := '[' :: quoteFix cap ++ [']']
        let jtext := subCommaClose ']' jtext
        let jtext := subCommaClose '}' jtext
        match jsonLoadRows jtext with
        | some rows => .ok rows
        | none => .ok []

/-! ## Scraping orchestration (`scrape_screenings`, lines 560-596) -/

/-- The placeholder check `screening.title.strip() == "Library Research Session"`. -/
def isPlaceholder (s : Screening) : Bool :=
  pyStrip s.title == "Library Research Session"

/-- The body of the per-row loop: decode (IndexError/ValueError is
caught, logged, and skips the row), discard the placeholder entry, then
admit the record only when its identifier is unseen.  State is the seen
identifier set (as a list) and the accumulated collection. -/
def processRow (st : List String × List Screening) (row : List String) :
    List String × List Screening :=
  match parse_screening row with
  | none => st
  | some s =>
    if isPlaceholder s then st
    else if st.1.contains s.id then st
    else (s.id :: st.1, st.2 ++ [s])

def processDay (st : List String × List Screening) (rows : List (List String)) :
    List String × List Screening :=
  rows.foldl processRow st

/-- The record-valued order used by `all_screenings.sort(key=lambda s: s.datetime)`. -/
def screeningLE (a b : Screening) : Prop :=
  dtleB a.datetime b.datetime = true

instance : DecidableRel screeningLE := fun a b => by
  unfold screeningLE; infer_instance

/-- The final stable sort by date-time.  Python's `list.sort` is a
stable sort by the given key; `List.insertionSort` with the same total
preorder is the same function (any two stable sorts agree). -/
def sortScreenings (l : List Screening) : List Screening :=
  List.insertionSort screeningLE l

/-- The aggregate in insertion (first-seen) order, before the final sort. -/
def admitted (days : List (List (List String))) : List Screening :=
  (days.foldl processDay ([], [])).2

/-- The aggregation pipeline of `scrape_screenings` on the per-day row
lists: fold every day through the dedup loop, then sort. -/
def aggregateDays (days : List (List (List String))) : List Screening :=
  sortScreenings (admitted days)

/-- The per-day decoded records after placeholder filtering, in
processing order: the stream the dedup loop consumes. -/
def decodedRows (rows : List (List String)) : List Screening :=
  (rows.filterMap parse_screening).filter (fun s => !(isPlaceholder s))

def decodedStream (days : List (List (List String))) : List Screening :=
  (days.map decodedRows).flatten

/-- First-seen-wins deduplication by identifier, with an explicit seen
set; recursion view of the `if screening.id not in seen_ids` loop. -/
def dedupGo (seen : List String) : List Screening → List Screening
  | [] => []
  | s :: rest =>
    if seen.contains s.id then dedupGo seen rest
    else s :: dedupGo (s.id :: seen) rest

/-- Failures of `fetch_single_day`: the explicit 403 check (expired
Cloudflare cookies) and `response.raise_for_status()` for any other
error status.  Both raise and are not caught by the day loop. -/
inductive FetchError where
  | forbidden
  | httpStatus (code : Nat)
deriving DecidableEq, Repr

inductive ScrapeError where
  | fetch (e : FetchError)
  | challenged
deriving DecidableEq, Repr

/-- The day loop of `scrape_screenings`.  Each day's fetch outcome is
supplied as input (the transport layer is an external collaborator);
the loop body fetches, extracts, and folds the rows into the running
state.  Exceptions from `fetch_single_day` and the challenge error from
`extract_search_results` propagate out of the loop — only per-row
`IndexError`/`ValueError` is caught inside it. -/
def scrapeGo : List (Except FetchError String) → List String × List Screening →
    Except ScrapeError (List String × List Screening)
  | [], st => .ok st
  | d :: rest, st =>
    match d with
    | .error e => .error (.fetch e)
    | .ok html =>
      match extract_search_results html with
      | .error .challenged => .error .challenged
      | .ok rows => scrapeGo rest (processDay st rows)

/-- Source `scrape_screenings` on a window of per-day fetch outcomes: run the
day loop from the empty state, then sort the collection. -/
def scrape_screenings (days : List (Except FetchError String)) :
    Except ScrapeError (List Screening) :=
  match scrapeGo days ([], []) with
  | .error e => .error e
  | .ok st => .ok (sortScreenings st.2)

/-! ## Order instances for the sort relation -/

instance : IsTotal Screening screeningLE :=
  ⟨by
    intro a b
    simp only [screeningLE, dtleB, decide_eq_true_eq]
    omega⟩

instance : IsTrans Screening screeningLE :=
  ⟨by
    intro a b c
    simp only [screeningLE, dtleB, decide_eq_true_eq]
    omega⟩

/-! ## Concrete inputs for the scenario claims -/

/-- The spec's scenario row, with its sixteen values at positions 0-15. -/
def scenarioRowAsWritten : List String :=
  ["123", "Film &amp; Title", "14:30", "5", "0", "2024", "S", "G", "42",
   "Previews, Q&A", "path/x", "v1", "NFT1", "NFT1", "5", "10"]

/-- The scenario row's values placed at the column indices of `Fields`
(identifier 0, title 5, time 8, day 9, month 10, year 11, sales 14,
availability 15, seats 16, keywords 17, deep link 18, venue 62-64,
prices 80-81), padded with empty fields elsewhere. -/
def scenarioRowAtSchema : List String :=
  ["123", "", "", "", "", "Film &amp; Title", "", "", "14:30", "5", "0", "2024",
   "", "", "S", "G", "42", "Previews, Q&A", "path/x"]
  ++ List.replicate 43 "" ++ ["v1", "NFT1", "NFT1"] ++ List.replicate 15 ""
  ++ ["5", "10"]

def scenarioScreening : Screening :=
  { id := "123"
    title := "Film & Title"
    datetime := ⟨2024, 1, 5, 14, 30⟩
    venue := { id := "v1", name := "NFT1", short_name := "NFT1" }
    availability := .GOOD
    sales_status := .ON_SALE
    seats_available := some 42
    keywords := ["Q&A"]
    min_price := some "5"
    max_price := some "10"
    article_url := some "path/x" }

/-- A well-formed sixteen-field row used to witness the round-trip and
short-row claims. -/
def shortRow : List String :=
  ["7", "", "", "", "", "Cat &amp; Dog", "", "", "09:05", "2", "1", "2023",
   "", "", "N", "L"]

def shortRowScreening : Screening :=
  { id := "7"
    title := "Cat & Dog"
    datetime := ⟨2023, 2, 2, 9, 5⟩
    venue := { id := "", name := "", short_name := "" }
    availability := .LIMITED
    sales_status := .NOT_ON_SALE
    seats_available := none
    keywords := []
    min_price := none
    max_price := none
    article_url := none }

/-- Two simulated days that both contain identifier 999, with different
availability codes — the duplicate-identifier scenario. -/
def dupRowDayOne : List String :=
  ["999", "", "", "", "", "Film A", "", "", "18:00", "1", "0", "2024",
   "", "", "S", "G"]

def dupRowDayTwo : List String :=
  ["999", "", "", "", "", "Film A", "", "", "18:00", "1", "0", "2024",
   "", "", "S", "S"]

def dupDays : List (List (List String)) :=
  [[dupRowDayOne], [dupRowDayTwo]]

def dupScreening : Screening :=
  { id := "999"
    title := "Film A"
    datetime := ⟨2024, 1, 1, 18, 0⟩
    venue := { id := "", name := "", short_name := "" }
    availability := .GOOD
    sales_status := .ON_SALE
    seats_available := none
    keywords := []
    min_price := none
    max_price := none
    article_url := none }

/-! ## Helper lemmas -/

theorem dropWhile_head_not (p : Char → Bool) (l : List Char) :
    l.dropWhile p = [] ∨ ∃ a t, l.dropWhile p = a :: t ∧ p a = false := by
  induction l with
  | nil => left; rfl
  | cons c tl ih =>
    cases hpc : p c with
    | true =>
      simpa [List.dropWhile, hpc] using ih
    | false =>
      right
      exact ⟨c, tl, by simp [List.dropWhile, hpc], hpc⟩

theorem dropWhile_dropWhile (p : Char → Bool) (l : List Char) :
    (l.dropWhile p).dropWhile p = l.dropWhile p := by
  rcases dropWhile_head_not p l with h | ⟨a, t, h, hpa⟩
  · rw [h]; rfl
  · rw [h]; simp [List.dropWhile, hpa]

theorem stripRight_front (l : List Char) : stripRight l <+: l := by
  have h : (stripRight l).reverse <:+ l.reverse := by
    simpa [stripRight] using List.dropWhile_suffix (l := l.reverse) isPySpace
  exact List.reverse_suffix.mp h

theorem prefix_head_eq {a b : List Char} (h : a <+: b) (ha : a ≠ []) :
    a.head? = b.head? := by
  obtain ⟨t, ht⟩ := h
  subst ht
  cases a with
  | nil => exact absurd rfl ha
  | cons x xs => rfl

theorem stripRight_stripRight (l : List Char) :
    stripRight (stripRight l) = stripRight l := by
  unfold stripRight
  rw [List.reverse_reverse, dropWhile_dropWhile]

theorem pyStripL_idem (l : List Char) : pyStripL (pyStripL l) = pyStripL l := by
  unfold pyStripL
  have h1 : (stripRight (l.dropWhile isPySpace)).dropWhile isPySpace
      = stripRight (l.dropWhile isPySpace) := by
    cases hcase : stripRight (l.dropWhile isPySpace) with
    | nil => rfl
    | cons x xs =>
      rcases dropWhile_head_not isPySpace l with h | ⟨c, t, h, hpc⟩
      · rw [h] at hcase
        simp [stripRight] at hcase
      · have hpre := stripRight_front (l.dropWhile isPySpace)
        have hh := prefix_head_eq (a := stripRight (l.dropWhile isPySpace))
          (b := l.dropWhile isPySpace) hpre (by rw [hcase]; simp)
        rw [hcase, h] at hh
        simp only [List.head?] at hh
        have hx : x = c := by simpa using hh
        subst hx
        simp [List.dropWhile, hpc]
  rw [h1, stripRight_stripRight]

theorem pyStrip_idem (s : String) : pyStrip (pyStrip s) = pyStrip s := by
  unfold pyStrip
  exact congrArg String.mk (pyStripL_idem s.data)

theorem normalise_venue_short_idem (s : String) :
    normalise_venue_short (normalise_venue_short s) = normalise_venue_short s := by
  unfold normalise_venue_short
  by_cases h0 : s = ""
  · simp [h0]
  · simp only [h0, if_false]
    by_cases halias : pyStrip s = "Southbank NFT2 GA" ∨ pyStrip s = "NFT2 GA"
    · simp only [halias, if_true]
      decide
    · simp only [halias, if_false]
      by_cases he : pyStrip s = ""
      · simp [he]
      · simp only [he, if_false, pyStrip_idem s, halias]

theorem availability_value_from_code (a : Availability) :
    Availability.from_code a.value = a := by
  cases a <;> rfl

theorem sales_value_from_code (a : SalesStatus) :
    SalesStatus.from_code a.value = a := by
  cases a <;> rfl

theorem filter_keywords_idem (ks : List String) :
    filter_keywords (filter_keywords ks) = filter_keywords ks := by
  unfold filter_keywords
  rw [List.filter_filter]
  congr 1
  funext k
  cases h : (!(UNWANTED_KEYWORDS.contains (pyStrip k))) <;> simp [h]

theorem roundtrip_of_canonical (s : Screening)
    (h1 : normalise_venue_short s.venue.short_name = s.venue.short_name)
    (h2 : filter_keywords s.keywords = s.keywords) :
    Screening.from_dict s.to_dict = s := by
  cases s with
  | mk idv titlev dtv venuev av sal seats kws minp maxp aurl =>
    cases venuev with
    | mk vid vname vshort =>
      simp only [Screening.from_dict, Screening.to_dict] at *
      simp [availability_value_from_code, sales_value_from_code, h1, h2]

theorem parse_canonical (row : List String) (s : Screening)
    (h : parse_screening row = some s) :
    normalise_venue_short s.venue.short_name = s.venue.short_name ∧
    filter_keywords s.keywords = s.keywords := by
  unfold parse_screening at h
  simp only [bind, Option.bind_eq_some, Option.pure_def, Option.some.injEq] at h
  obtain ⟨dtv, hdt, idv, hid, t, ht, sal, hsal, av, hav, hs⟩ := h
  subst hs
  exact ⟨normalise_venue_short_idem _, filter_keywords_idem _⟩

/-! ## Claim C1 -/

/-- C1 counterexample: the scenario row exactly as the spec writes it
(sixteen values at positions 0-15) does not decode to the described
record — decoding fails, because the decoder reads the title from
index 5, the time from index 8, and the date from indices 9-11, where
this row carries other values (`int("v1")` at the year index raises). -/
theorem c1_counterexample : parse_screening scenarioRowAsWritten = none := by
  decide

/-- C1 amended: with the same sixteen values placed at the column
indices the row schema fixes (identifier 0, title 5, time 8, day 9,
month 10, year 11, sales 14, availability 15, seats 16, keywords 17,
deep link 18, venue 62-64, prices 80-81), the decoder produces exactly
the described record: title "Film & Title" (HTML-entity-decoded),
date-time 2024-01-05T14:30 (zero-based month offset by one),
availability good, sales on-sale, 42 seats, and keywords ["Q&A"] with
the denylisted "Previews" removed. -/
theorem c1_amended : parse_screening scenarioRowAtSchema = some scenarioScreening := by
  decide

/-! ## Claim C4 -/

/-- C4: for every record constructed by the row decoder, encoding it to
the persisted catalog format and decoding it back yields an equal
record; the venue-short normalisation and keyword filtering re-applied
on load are idempotent over what decode already produced. -/
theorem c4_roundtrip (row : List String) (s : Screening)
    (h : parse_screening row = some s) :
    Screening.from_dict s.to_dict = s := by
  obtain ⟨h1, h2⟩ := parse_canonical row s h
  exact roundtrip_of_canonical s h1 h2

/-- C4 witness: the round-trip theorem applied to a concrete decoded row. -/
theorem c4_roundtrip_witness :
    parse_screening shortRow = some shortRowScreening ∧
    Screening.from_dict shortRowScreening.to_dict = shortRowScreening :=
  ⟨by decide, c4_roundtrip shortRow shortRowScreening (by decide)⟩

/-! ## Claim C10 -/

/-- C10 counterexample: two venues with the same identifier but
different display names are not equal — the dataclass-generated
equality compares all fields, so "v1 equals v2 iff the identifiers are
equal" fails; only the hash ignores the other fields. -/
theorem c10_counterexample :
    (Venue.mk "1" "A" "X").id = (Venue.mk "1" "B" "X").id ∧
    venue_eq (Venue.mk "1" "A" "X") (Venue.mk "1" "B" "X") = false := by
  decide

/-- C10 amended: `Venue` equality is the dataclass field-wise comparison
(identifier, display name, and short code must all agree), while the
hash factors through the identifier alone (`hash(self.id)`), so
equality implies equal hashes but equality is not determined by the
identifier. -/
theorem c10_amended (h : String → Nat) (v1 v2 : Venue) :
    (venue_eq v1 v2 = true ↔ v1 = v2) ∧ venue_hash h v1 = h v1.id := by
  refine ⟨?_, rfl⟩
  cases v1 with
  | mk i1 n1 s1 =>
    cases v2 with
    | mk i2 n2 s2 =>
      simp [venue_eq, Venue.mk.injEq, Bool.and_eq_true, and_assoc]

/-! ## Claim C9 -/

/-- C9: on every exit path of the cookie-store read — successful return
of the name-to-value mapping, a failure while querying or decoding the
store, a store-open failure, or the zero-matching-cookies failure — the
temporary copy of the store is deleted (the `finally` clause) before
the operation returns or propagates its error. -/
theorem c9_cleanup (connectOk : Bool)
    (query : Except Unit (List (String × String × String))) :
    (load_cookies_run connectOk query).2.tempExists = false ∧
    ((load_cookies_run connectOk query).1 = .error .connectFailed ∨
     (load_cookies_run connectOk query).1 = .error .queryFailed ∨
     (load_cookies_run connectOk query).1 = .error .noCookies ∨
     ∃ rows, query = .ok rows ∧
       (load_cookies_run connectOk query).1 = .ok (buildCookieMap rows)) := by
  refine ⟨rfl, ?_⟩
  cases connectOk with
  | false => left; rfl
  | true =>
    cases query with
    | error e => right; left; simp [load_cookies_run]
    | ok rows =>
      by_cases hrows : (buildCookieMap rows).isEmpty
      · right; right; left; simp [load_cookies_run, hrows]
      · right; right; right
        exact ⟨rows, rfl, by simp [load_cookies_run, hrows]⟩

/-! ## Claim C3, counterexample -/

/-- C3 counterexample: for the host "bfi.org.uk" the last two labels
form the known multi-label suffix "org.uk", so the claim requires the
output to be {H, ".H", parent, ".parent"} with the registrable parent
one extra label above the suffix — which is "bfi.org.uk", the host
itself — and simultaneously parent ≠ H.  The code instead emits the
bare two-label suffix "org.uk" as the parent, which is none of the
claimed elements. -/
theorem c3_counterexample :
    load_cookies_domains "bfi.org.uk" =
      ["bfi.org.uk", ".bfi.org.uk", ".org.uk", "org.uk"] ∧
    "org.uk" ∈ load_cookies_domains "bfi.org.uk" ∧
    ("org.uk" : String) ∉ ["bfi.org.uk", ".bfi.org.uk"] := by
  decide

/-! ## Claim C8 -/

/-- C8: every row shorter than 80 fields decodes successfully provided
the required indices (all below 16) are present and the date-time
fields are well formed; each optional field whose index lies at or
beyond the row's length decodes to absent (or the empty default for the
venue fields), never an out-of-bounds error.  The price fields, at
indices 80 and 81, are always absent for such rows. -/
theorem c8_short_rows (row : List String) (hlen : row.length < 80)
    (hreq : 15 < row.length) (hdt : (screeningDT row).isSome = true) :
    ∃ s, parse_screening row = some s ∧
      s.min_price = none ∧ s.max_price = none ∧
      (row.length ≤ 16 → s.seats_available = none) ∧
      (row.length ≤ 17 → s.keywords = []) ∧
      (row.length ≤ 18 → s.article_url = none) ∧
      (row.length ≤ 62 → s.venue.id = "") ∧
      (row.length ≤ 63 → s.venue.name = "") ∧
      (row.length ≤ 64 → s.venue.short_name = "") := by
  obtain ⟨dtv, hdtv⟩ := Option.isSome_iff_exists.mp hdt
  have hg0 : ∃ v, row.get? 0 = some v := by
    cases hg : row.get? 0 with
    | none => rw [List.get?_eq_none] at hg; omega
    | some v => exact ⟨v, rfl⟩
  have hg5 : ∃ v, row.get? 5 = some v := by
    cases hg : row.get? 5 with
    | none => rw [List.get?_eq_none] at hg; omega
    | some v => exact ⟨v, rfl⟩
  have hg14 : ∃ v, row.get? 14 = some v := by
    cases hg : row.get? 14 with
    | none => rw [List.get?_eq_none] at hg; omega
    | some v => exact ⟨v, rfl⟩
  have hg15 : ∃ v, row.get? 15 = some v := by
    cases hg : row.get? 15 with
    | none => rw [List.get?_eq_none] at hg; omega
    | some v => exact ⟨v, rfl⟩
  obtain ⟨idv, h0⟩ := hg0
  obtain ⟨titlev, h5⟩ := hg5
  obtain ⟨salv, h14⟩ := hg14
  obtain ⟨avv, h15⟩ := hg15
  have h80 : row.get? 80 = none := List.get?_eq_none.mpr (by omega)
  have h81 : row.get? 81 = none := List.get?_eq_none.mpr (by omega)
  refine ⟨{ id := idv
            title := htmlUnescape titlev
            datetime := dtv
            venue :=
              { id := (row.get? 62).getD ""
                name := (row.get? 63).getD ""
                short_name := normalise_venue_short ((row.get? 64).getD "") }
            availability := Availability.from_code avv
            sales_status := SalesStatus.from_code salv
            seats_available := (row.get? 16).bind
              (fun sr => (pyIntDigits sr.data).map Int.ofNat)
            keywords := filter_keywords
              (((pySplit ((row.get? 17).getD "") ',').map pyStrip).filter
                (fun k => k ≠ ""))
            min_price := row.get? 80
            max_price := row.get? 81
            article_url := row.get? 18 }, ?_, ?_, ?_, ?_, ?_, ?_, ?_, ?_, ?_⟩
  · unfold parse_screening Fields.ID Fields.TITLE Fields.SALES_STATUS
      Fields.AVAILABILITY Fields.SEATS_AVAILABLE Fields.KEYWORDS
      Fields.ARTICLE_URL Fields.VENUE_ID Fields.VENUE_NAME Fields.VENUE_SHORT
      Fields.MIN_PRICE Fields.MAX_PRICE
    rw [hdtv, h0, h5, h14, h15]
    rfl
  · simpa using h80
  · simpa using h81
  · intro h16
    have h : row.get? 16 = none := List.get?_eq_none.mpr (by omega)
    rw [List.get?_eq_getElem?] at h
    simp [h]
  · intro h17
    have h : row.get? 17 = none := List.get?_eq_none.mpr (by omega)
    simp only [h, Option.getD_none]
    decide
  · intro h18
    have h : row.get? 18 = none := List.get?_eq_none.mpr (by omega)
    simpa using h
  · intro h62
    have h : row.get? 62 = none := List.get?_eq_none.mpr (by omega)
    rw [List.get?_eq_getElem?] at h
    simp [h]
  · intro h63
    have h : row.get? 63 = none := List.get?_eq_none.mpr (by omega)
    rw [List.get?_eq_getElem?] at h
    simp [h]
  · intro h64
    have h : row.get? 64 = none := List.get?_eq_none.mpr (by omega)
    simp only [h, Option.getD_none]
    decide

/-- C8 witness: the theorem applied to a concrete sixteen-field row. -/
theorem c8_short_rows_witness :
    shortRow.length < 80 ∧ 15 < shortRow.length ∧
    (screeningDT shortRow).isSome = true ∧
    ∃ s, parse_screening shortRow = some s ∧
      s.min_price = none ∧ s.max_price = none ∧
      (shortRow.length ≤ 16 → s.seats_available = none) ∧
      (shortRow.length ≤ 17 → s.keywords = []) ∧
      (shortRow.length ≤ 18 → s.article_url = none) ∧
      (shortRow.length ≤ 62 → s.venue.id = "") ∧
      (shortRow.length ≤ 63 → s.venue.name = "") ∧
      (shortRow.length ≤ 64 → s.venue.short_name = "") :=
  ⟨by decide, by decide, by decide,
    c8_short_rows shortRow (by decide) (by decide) (by decide)⟩

/-! ## Claim C2 -/

/-- If every day before the first failing day fetched and extracted
successfully, the fetch error of the failing day propagates out of the
whole day loop, regardless of the remaining days. -/
theorem scrapeGo_abort (e : FetchError) (rest : List (Except FetchError String)) :
    ∀ pre : List (Except FetchError String),
      (∀ d ∈ pre, ∃ h rows, d = Except.ok h ∧ extract_search_results h = .ok rows) →
      ∀ st, scrapeGo (pre ++ .error e :: rest) st = .error (.fetch e) := by
  intro pre
  induction pre with
  | nil => intro _ st; rfl
  | cons d pre ih =>
    intro hpre st
    obtain ⟨hh, rows, hd, hex⟩ := hpre d (List.mem_cons_self d pre)
    subst hd
    simp only [List.cons_append, scrapeGo, hex]
    exact ih (fun x hx => hpre x (List.mem_cons_of_mem _ hx)) _

/-- C2 counterexample: a run whose first day fails with an ordinary
HTTP error (status 500 from `raise_for_status`) and whose second day
would succeed.  The claim says the failed day is skipped and the run
continues, producing the aggregate of the remaining days (here
`.ok []`); the code instead aborts the entire run with the fetch
error, because `fetch_single_day` is called outside the try block that
only catches per-row `IndexError`/`ValueError`. -/
theorem c2_counterexample :
    scrape_screenings [.error (.httpStatus 500), .ok "x"] =
      .error (.fetch (.httpStatus 500)) ∧
    scrape_screenings [.error (.httpStatus 500), .ok "x"] ≠ .ok [] := by
  refine ⟨rfl, ?_⟩
  intro h
  rw [show scrape_screenings [.error (.httpStatus 500), .ok "x"] =
      .error (.fetch (.httpStatus 500)) from rfl] at h
  exact Except.noConfusion h

/-- C2 amended: a day whose fetch fails aborts the entire multi-day
fetch — whether the failure is an ordinary HTTP error or an
authentication challenge — leaving no aggregate at all; only per-row
decode errors are caught, logged, and skipped inside a day. -/
theorem c2_amended (pre : List (Except FetchError String)) (e : FetchError)
    (rest : List (Except FetchError String))
    (hpre : ∀ d ∈ pre, ∃ h rows, d = Except.ok h ∧ extract_search_results h = .ok rows) :
    scrape_screenings (pre ++ .error e :: rest) = .error (.fetch e) := by
  unfold scrape_screenings
  rw [scrapeGo_abort e rest pre hpre ([], [])]

/-- C2 witness: the amended theorem at a concrete three-day run whose
middle day fails with an ordinary HTTP error. -/
theorem c2_amended_witness :
    scrape_screenings [.ok "x", .error (.httpStatus 500), .ok "y"] =
      .error (.fetch (.httpStatus 500)) := by
  have h := c2_amended [Except.ok "x"] (.httpStatus 500) [Except.ok "y"]
    (by
      intro d hd
      simp only [List.mem_singleton] at hd
      subst hd
      exact ⟨"x", [], rfl, rfl⟩)
  simpa using h

/-! ## Claim C7 -/

/-- C7 counterexample: markup that contains the challenge marker
"challenge-platform" but also contains "articleContext" is not reported
as a challenge — the challenge check only runs when "articleContext" is
absent — so the extractor returns the empty-rows success instead. -/
theorem c7_counterexample :
    containsSub "challenge-platform" "articleContext challenge-platform" = true ∧
    extract_search_results "articleContext challenge-platform" = .ok [] := by
  exact ⟨by decide, rfl⟩

/-- C7 amended: markup that contains the challenge marker
"challenge-platform" and does not contain the listing marker
"articleContext" fails with the Challenged condition, which is distinct
(by constructor) from the `.ok []` empty-sequence result returned for
markup with no listing data. -/
theorem c7_amended (html : String)
    (h1 : containsSub "articleContext" html = false)
    (h2 : containsSub "challenge-platform" html = true) :
    extract_search_results html = .error .challenged := by
  unfold extract_search_results
  rw [h1, h2]
  simp

/-- C7 witness: the amended theorem at concrete challenge markup. -/
theorem c7_amended_witness :
    containsSub "articleContext" "challenge-platform" = false ∧
    containsSub "challenge-platform" "challenge-platform" = true ∧
    extract_search_results "challenge-platform" = .error .challenged :=
  ⟨by decide, by decide, c7_amended "challenge-platform" (by decide) (by decide)⟩

/-! ## Aggregation lemmas -/

theorem decodedRows_append (l1 l2 : List (List String)) :
    decodedRows (l1 ++ l2) = decodedRows l1 ++ decodedRows l2 := by
  simp [decodedRows, List.filterMap_append, List.filter_append]

theorem foldl_processDay_flatten (days : List (List (List String))) :
    ∀ st, days.foldl processDay st = days.flatten.foldl processRow st := by
  induction days with
  | nil => intro st; rfl
  | cons d rest ih =>
    intro st
    simp only [List.foldl_cons, List.flatten_cons, List.foldl_append]
    exact ih (processDay st d)

theorem decodedRows_flatten (days : List (List (List String))) :
    decodedRows days.flatten = decodedStream days := by
  induction days with
  | nil => rfl
  | cons d rest ih =>
    simp only [List.flatten_cons, decodedRows_append, ih, decodedStream,
      List.map_cons, List.flatten_cons]

theorem foldl_processRow_eq (rows : List (List String)) :
    ∀ seen acc, rows.foldl processRow (seen, acc) =
      (((dedupGo seen (decodedRows rows)).map (fun s => s.id)).reverse ++ seen,
       acc ++ dedupGo seen (decodedRows rows)) := by
  induction rows with
  | nil => intro seen acc; simp [decodedRows, dedupGo]
  | cons row rest ih =>
    intro seen acc
    simp only [List.foldl_cons]
    cases hp : parse_screening row with
    | none =>
      have hdr : decodedRows (row :: rest) = decodedRows rest := by
        simp [decodedRows, List.filterMap_cons, hp]
      rw [hdr]
      have hpr : processRow (seen, acc) row = (seen, acc) := by
        simp [processRow, hp]
      rw [hpr]
      exact ih seen acc
    | some s =>
      cases hpl : isPlaceholder s with
      | true =>
        have hdr : decodedRows (row :: rest) = decodedRows rest := by
          simp [decodedRows, List.filterMap_cons, hp, List.filter_cons, hpl]
        rw [hdr]
        have hpr : processRow (seen, acc) row = (seen, acc) := by
          simp [processRow, hp, hpl]
        rw [hpr]
        exact ih seen acc
      | false =>
        have hdr : decodedRows (row :: rest) = s :: decodedRows rest := by
          simp [decodedRows, List.filterMap_cons, hp, List.filter_cons, hpl]
        rw [hdr]
        by_cases hc : s.id ∈ seen
        · have hpr : processRow (seen, acc) row = (seen, acc) := by
            simp [processRow, hp, hpl, hc]
          rw [hpr]
          have hdd : dedupGo seen (s :: decodedRows rest) =
              dedupGo seen (decodedRows rest) := by
            simp [dedupGo, hc]
          rw [hdd]
          exact ih seen acc
        · have hpr : processRow (seen, acc) row = (s.id :: seen, acc ++ [s]) := by
            simp [processRow, hp, hpl, hc]
          rw [hpr]
          have hdd : dedupGo seen (s :: decodedRows rest) =
              s :: dedupGo (s.id :: seen) (decodedRows rest) := by
            simp [dedupGo, hc]
          rw [hdd, ih (s.id :: seen) (acc ++ [s])]
          simp [List.append_assoc]

theorem admitted_eq (days : List (List (List String))) :
    admitted days = dedupGo [] (decodedStream days) := by
  unfold admitted
  rw [foldl_processDay_flatten, foldl_processRow_eq, ← decodedRows_flatten]
  simp

theorem dedupGo_not_seen (l : List Screening) :
    ∀ seen, ∀ r ∈ dedupGo seen l, r.id ∉ seen := by
  induction l with
  | nil => intro seen r hr; simp [dedupGo] at hr
  | cons s rest ih =>
    intro seen r hr
    by_cases hc : s.id ∈ seen
    · rw [show dedupGo seen (s :: rest) = dedupGo seen rest by simp [dedupGo, hc]] at hr
      exact ih seen r hr
    · rw [show dedupGo seen (s :: rest) = s :: dedupGo (s.id :: seen) rest by
        simp [dedupGo, hc]] at hr
      rcases List.mem_cons.mp hr with rfl | hr2
      · exact hc
      · have h2 := ih (s.id :: seen) r hr2
        intro hmem
        exact h2 (List.mem_cons_of_mem _ hmem)

theorem dedupGo_find (l : List Screening) :
    ∀ seen, ∀ r ∈ dedupGo seen l, l.find? (fun s => s.id == r.id) = some r := by
  induction l with
  | nil => intro seen r hr; simp [dedupGo] at hr
  | cons s rest ih =>
    intro seen r hr
    by_cases hc : s.id ∈ seen
    · rw [show dedupGo seen (s :: rest) = dedupGo seen rest by simp [dedupGo, hc]] at hr
      have hrs : r.id ∉ seen := dedupGo_not_seen rest seen r hr
      have hne : (s.id == r.id) = false := by
        simp only [beq_eq_false_iff_ne, ne_eq]
        intro h
        rw [h] at hc
        exact hrs hc
      simp only [List.find?, hne]
      exact ih seen r hr
    · rw [show dedupGo seen (s :: rest) = s :: dedupGo (s.id :: seen) rest by
        simp [dedupGo, hc]] at hr
      rcases List.mem_cons.mp hr with rfl | hr2
      · simp [List.find?]
      · have hrs : r.id ∉ s.id :: seen := dedupGo_not_seen rest (s.id :: seen) r hr2
        have hne : (s.id == r.id) = false := by
          simp only [beq_eq_false_iff_ne, ne_eq]
          intro h
          exact hrs (h ▸ List.mem_cons_self _ _)
        simp only [List.find?, hne]
        exact ih (s.id :: seen) r hr2

theorem dedupGo_nodup (l : List Screening) :
    ∀ seen, ((dedupGo seen l).map (fun s => s.id)).Nodup := by
  induction l with
  | nil => intro seen; simp [dedupGo]
  | cons s rest ih =>
    intro seen
    by_cases hc : s.id ∈ seen
    · rw [show dedupGo seen (s :: rest) = dedupGo seen rest by simp [dedupGo, hc]]
      exact ih seen
    · rw [show dedupGo seen (s :: rest) = s :: dedupGo (s.id :: seen) rest by
        simp [dedupGo, hc]]
      simp only [List.map_cons, List.nodup_cons]
      refine ⟨?_, ih (s.id :: seen)⟩
      intro hmem
      obtain ⟨t, ht, hid⟩ := List.mem_map.mp hmem
      have hnot := dedupGo_not_seen rest (s.id :: seen) t ht
      exact hnot (hid ▸ List.mem_cons_self _ _)

theorem dedupGo_covers (l : List Screening) :
    ∀ seen, ∀ s ∈ l, s.id ∉ seen → ∃ t ∈ dedupGo seen l, t.id = s.id := by
  induction l with
  | nil => intro seen s hs; simp at hs
  | cons u rest ih =>
    intro seen s hs hns
    by_cases hc : u.id ∈ seen
    · rw [show dedupGo seen (u :: rest) = dedupGo seen rest by simp [dedupGo, hc]]
      rcases List.mem_cons.mp hs with rfl | hs2
      · exact absurd hc hns
      · exact ih seen s hs2 hns
    · rw [show dedupGo seen (u :: rest) = u :: dedupGo (u.id :: seen) rest by
        simp [dedupGo, hc]]
      rcases List.mem_cons.mp hs with rfl | hs2
      · exact ⟨s, List.mem_cons_self _ _, rfl⟩
      · by_cases hsu : s.id = u.id
        · exact ⟨u, List.mem_cons_self _ _, hsu.symm⟩
        · obtain ⟨t, ht, hid⟩ := ih (u.id :: seen) s hs2 (by
            intro hmem
            rcases List.mem_cons.mp hmem with h | h
            · exact hsu h
            · exact hns h)
          exact ⟨t, List.mem_cons_of_mem _ ht, hid⟩

theorem mem_sortScreenings (l : List Screening) (r : Screening) :
    r ∈ sortScreenings l ↔ r ∈ l :=
  (List.perm_insertionSort screeningLE l).mem_iff

theorem sortScreenings_nodup_ids (l : List Screening)
    (h : (l.map (fun s => s.id)).Nodup) :
    ((sortScreenings l).map (fun s => s.id)).Nodup :=
  (((List.perm_insertionSort screeningLE l).map (fun s => s.id)).nodup_iff).mpr h

theorem dtleB_refl (a : DateTime) : dtleB a a = true := by
  simp [dtleB]

theorem orderedInsert_filter_dt (x : Screening) (d : DateTime) (l : List Screening) :
    (List.orderedInsert screeningLE x l).filter (fun s => s.datetime == d) =
      if x.datetime == d then x :: l.filter (fun s => s.datetime == d)
      else l.filter (fun s => s.datetime == d) := by
  induction l with
  | nil =>
    simp only [List.orderedInsert_nil]
    by_cases hx : x.datetime = d <;> simp [List.filter_cons, hx]
  | cons y ys ih =>
    by_cases hxy : screeningLE x y
    · rw [List.orderedInsert_of_le screeningLE ys hxy]
      by_cases hx : x.datetime = d <;> simp [List.filter_cons, hx]
    · have hoi : List.orderedInsert screeningLE x (y :: ys) =
        y :: List.orderedInsert screeningLE x ys := by
        simp [List.orderedInsert, hxy]
      rw [hoi]
      by_cases hyd : y.datetime = d
      · have hxd : ¬(x.datetime = d) := by
          intro hx
          apply hxy
          unfold screeningLE
          rw [hx, hyd]
          exact dtleB_refl d
        simp [List.filter_cons, hyd, hxd, ih]
      · by_cases hx : x.datetime = d <;> simp [List.filter_cons, hyd, hx, ih]

theorem sortScreenings_filter_dt (l : List Screening) (d : DateTime) :
    (sortScreenings l).filter (fun s => s.datetime == d) =
      l.filter (fun s => s.datetime == d) := by
  induction l with
  | nil => rfl
  | cons x xs ih =>
    show (List.orderedInsert screeningLE x (List.insertionSort screeningLE xs)).filter
        (fun s => s.datetime == d) = _
    rw [orderedInsert_filter_dt]
    by_cases hx : x.datetime = d <;>
      simp [List.filter_cons, hx, ← ih, sortScreenings]

/-! ## Claim C5 -/

/-- C5: in the aggregated collection, identifiers are unique; every
record of the final collection is the first-seen decoded record with
its identifier (later duplicates, same or differing fields, within one
day or across days, are dropped); and every decoded identifier is
represented exactly once. -/
theorem c5_dedup (days : List (List (List String))) (r : Screening)
    (hr : r ∈ aggregateDays days) :
    (decodedStream days).find? (fun s => s.id == r.id) = some r ∧
    ((aggregateDays days).map (fun s => s.id)).Nodup ∧
    ∀ s ∈ decodedStream days, ∃ t ∈ aggregateDays days, t.id = s.id := by
  have hadm : admitted days = dedupGo [] (decodedStream days) := admitted_eq days
  have hmem : r ∈ admitted days := (mem_sortScreenings (admitted days) r).mp hr
  refine ⟨?_, ?_, ?_⟩
  · exact dedupGo_find (decodedStream days) [] r (hadm ▸ hmem)
  · have hnd := dedupGo_nodup (decodedStream days) []
    rw [← hadm] at hnd
    exact sortScreenings_nodup_ids _ hnd
  · intro s hs
    obtain ⟨t, ht, hid⟩ := dedupGo_covers (decodedStream days) [] s hs (by simp)
    refine ⟨t, ?_, hid⟩
    exact (mem_sortScreenings (admitted days) t).mpr (hadm ▸ ht)

/-- C5 witness: two days that both carry identifier 999 with different
availability codes; the aggregate holds exactly the first day's record. -/
theorem c5_dedup_witness :
    dupScreening ∈ aggregateDays dupDays ∧
    (decodedStream dupDays).find? (fun s => s.id == dupScreening.id) =
      some dupScreening ∧
    ((aggregateDays dupDays).map (fun s => s.id)).Nodup ∧
    ∀ s ∈ decodedStream dupDays, ∃ t ∈ aggregateDays dupDays, t.id = s.id := by
  have h := c5_dedup dupDays dupScreening (by decide)
  exact ⟨by decide, h.1, h.2.1, h.2.2⟩

/-! ## Claim C6 -/

/-- C6: after aggregation the collection is sorted — every adjacent
pair satisfies the date-time order — and the sort is stable: for every
date-time value, the records carrying it appear in the same order as in
the pre-sort insertion (first-seen) order. -/
theorem c6_sorted (days : List (List (List String))) :
    List.Chain' screeningLE (aggregateDays days) ∧
    ∀ d : DateTime, (aggregateDays days).filter (fun s => s.datetime == d) =
      (admitted days).filter (fun s => s.datetime == d) := by
  constructor
  · exact (List.sorted_insertionSort screeningLE (admitted days)).chain'
  · intro d
    exact sortScreenings_filter_dt (admitted days) d

/-! ## Split/join lemmas for the cookie-domain resolver -/

theorem splitChar_ne_nil (sep : Char) (l : List Char) : splitChar sep l ≠ [] := by
  cases l with
  | nil => simp [splitChar]
  | cons c rest =>
    by_cases h : c = sep
    · simp [splitChar, h]
    · cases hs : splitChar sep rest with
      | nil => simp [splitChar, h, hs]
      | cons p ps => simp [splitChar, h, hs]

theorem joinChar_splitChar (sep : Char) (l : List Char) :
    joinChar sep (splitChar sep l) = l := by
  induction l with
  | nil => rfl
  | cons c rest ih =>
    by_cases h : c = sep
    · subst h
      cases hs : splitChar c rest with
      | nil => exact absurd hs (splitChar_ne_nil c rest)
      | cons p ps =>
        rw [show splitChar c (c :: rest) = [] :: splitChar c rest by
          simp [splitChar]]
        rw [hs]
        rw [hs] at ih
        rw [show joinChar c ([] :: p :: ps) = [] ++ c :: joinChar c (p :: ps) from rfl]
        simp only [List.nil_append]
        rw [ih]
    · cases hs : splitChar sep rest with
      | nil => exact absurd hs (splitChar_ne_nil sep rest)
      | cons p ps =>
        rw [show splitChar sep (c :: rest) = (c :: p) :: ps by
          simp [splitChar, h, hs]]
        rw [hs] at ih
        cases ps with
        | nil =>
          rw [show joinChar sep [c :: p] = c :: p from rfl]
          rw [show joinChar sep [p] = p from rfl] at ih
          rw [ih]
        | cons q qs =>
          rw [show joinChar sep ((c :: p) :: q :: qs) =
            (c :: p) ++ sep :: joinChar sep (q :: qs) from rfl]
          rw [show joinChar sep (p :: q :: qs) =
            p ++ sep :: joinChar sep (q :: qs) from rfl] at ih
          simp only [List.cons_append]
          rw [ih]

theorem joinChar_append (sep : Char) (ys : List (List Char)) (hy : ys ≠ []) :
    ∀ xs : List (List Char), xs ≠ [] →
      joinChar sep (xs ++ ys) = joinChar sep xs ++ sep :: joinChar sep ys := by
  intro xs
  induction xs with
  | nil => intro h; exact absurd rfl h
  | cons p ps ih =>
    intro _
    cases hps : ps with
    | nil =>
      cases ys with
      | nil => exact absurd rfl hy
      | cons y ys2 => rfl
    | cons q qs =>
      subst hps
      have ihh := ih (by simp)
      rw [show (p :: q :: qs) ++ ys = p :: (q :: qs ++ ys) from rfl]
      rw [show joinChar sep (p :: (q :: qs ++ ys)) =
        p ++ sep :: joinChar sep (q :: qs ++ ys) from rfl]
      rw [ihh]
      rw [show joinChar sep (p :: q :: qs) =
        p ++ sep :: joinChar sep (q :: qs) from rfl]
      simp [List.append_assoc]

theorem joinChar_length_pos (sep : Char) (xs : List (List Char)) (hx : xs ≠ [])
    (hne : ∀ q ∈ xs, q ≠ []) : 1 ≤ (joinChar sep xs).length := by
  cases xs with
  | nil => exact absurd rfl hx
  | cons p ps =>
    have hp : p ≠ [] := hne p (List.mem_cons_self p ps)
    have hplen : 1 ≤ p.length := List.length_pos.mpr hp
    cases ps with
    | nil => simpa [joinChar] using hplen
    | cons q qs =>
      rw [show joinChar sep (p :: q :: qs) =
        p ++ sep :: joinChar sep (q :: qs) from rfl]
      simp only [List.length_append, List.length_cons]
      omega

theorem drop_join_length (parts : List (List Char)) (k : Nat) (hk : 0 < k)
    (hklt : k < parts.length) (hne : ∀ q ∈ parts, q ≠ []) :
    (joinChar '.' (parts.drop k)).length + 2 ≤ (joinChar '.' parts).length := by
  have htake : (parts.take k).length = k := by
    rw [List.length_take]; omega
  have hxs : parts.take k ≠ [] := by
    intro h; rw [h] at htake; simp at htake; omega
  have hdrop : (parts.drop k).length = parts.length - k := List.length_drop k parts
  have hys : parts.drop k ≠ [] := by
    intro h; rw [h] at hdrop; simp at hdrop; omega
  have heq : joinChar '.' parts =
      joinChar '.' (parts.take k) ++ '.' :: joinChar '.' (parts.drop k) := by
    conv_lhs => rw [← List.take_append_drop k parts]
    exact joinChar_append '.' (parts.drop k) hys (parts.take k) hxs
  have h1 : 1 ≤ (joinChar '.' (parts.take k)).length :=
    joinChar_length_pos '.' (parts.take k) hxs
      (fun q hq => hne q (List.mem_of_mem_take hq))
  rw [heq]
  simp only [List.length_append, List.length_cons]
  omega

theorem mk_ne_of_length {a b : List Char} (h : a.length ≠ b.length) :
    String.mk a ≠ String.mk b := by
  intro hc
  exact h (congrArg List.length (congrArg String.data hc))

/-- Evaluation of the domain-list computation when the last two labels
form a known two-part TLD and the domain has more than three labels:
the parent is the last three labels. -/
theorem domainsGo_case_tld (d : List Char)
    (h3 : 3 < (splitChar '.' d).length)
    (htld : joinChar '.' ((splitChar '.' d).drop ((splitChar '.' d).length - 2)) ∈ twoPartTlds)
    (hned : joinChar '.' ((splitChar '.' d).drop ((splitChar '.' d).length - 3)) ≠ d) :
    domainsGo d = [d, '.' :: d,
      '.' :: joinChar '.' ((splitChar '.' d).drop ((splitChar '.' d).length - 3)),
      joinChar '.' ((splitChar '.' d).drop ((splitChar '.' d).length - 3))] := by
  simp only [domainsGo]
  rw [if_pos (by omega : 2 ≤ (splitChar '.' d).length)]
  rw [if_pos ⟨htld, h3⟩]
  simp only []
  rw [if_pos hned]
  rfl

/-- Evaluation of the domain-list computation on the `elif` branch (no
TLD match with more than three labels, but more than two labels): the parent is the last two labels. -/
theorem domainsGo_case_two (d : List Char)
    (h2 : 2 < (splitChar '.' d).length)
    (hcond : ¬(joinChar '.' ((splitChar '.' d).drop ((splitChar '.' d).length - 2)) ∈ twoPartTlds
      ∧ 3 < (splitChar '.' d).length))
    (hned : joinChar '.' ((splitChar '.' d).drop ((splitChar '.' d).length - 2)) ≠ d) :
    domainsGo d = [d, '.' :: d,
      '.' :: joinChar '.' ((splitChar '.' d).drop ((splitChar '.' d).length - 2)),
      joinChar '.' ((splitChar '.' d).drop ((splitChar '.' d).length - 2))] := by
  simp only [domainsGo]
  rw [if_pos (by omega : 2 ≤ (splitChar '.' d).length)]
  rw [if_neg hcond]
  rw [if_pos h2]
  simp only []
  rw [if_pos hned]
  rfl

/-! ## Claim C3, amended -/

/-- C3 amended: for hosts with non-empty labels.  When the host has
more than three labels and its last two labels form a known multi-label
suffix, the output is exactly the ordered, duplicate-free list
`[H, ".H", ".parent", parent]` with the registrable parent correctly
computed as the last three labels (one extra label above the suffix)
and never equal to H.  A host with exactly three labels matching a
known suffix, or any host not matching (with more than two labels),
falls back to the simple two-label parent — for a three-label matching
host that parent is the bare suffix itself, not a registrable domain. -/
theorem c3_amended (H : String)
    (hlab : ∀ q ∈ splitChar '.' H.data, q ≠ []) :
    (3 < (splitChar '.' H.data).length →
      joinChar '.' ((splitChar '.' H.data).drop ((splitChar '.' H.data).length - 2))
        ∈ twoPartTlds →
      load_cookies_domains H =
        [H, String.mk ('.' :: H.data),
         String.mk ('.' :: joinChar '.'
           ((splitChar '.' H.data).drop ((splitChar '.' H.data).length - 3))),
         String.mk (joinChar '.'
           ((splitChar '.' H.data).drop ((splitChar '.' H.data).length - 3)))] ∧
      (load_cookies_domains H).Nodup ∧
      String.mk (joinChar '.'
        ((splitChar '.' H.data).drop ((splitChar '.' H.data).length - 3))) ≠ H) ∧
    (2 < (splitChar '.' H.data).length →
      ¬(joinChar '.' ((splitChar '.' H.data).drop ((splitChar '.' H.data).length - 2))
          ∈ twoPartTlds ∧ 3 < (splitChar '.' H.data).length) →
      load_cookies_domains H =
        [H, String.mk ('.' :: H.data),
         String.mk ('.' :: joinChar '.'
           ((splitChar '.' H.data).drop ((splitChar '.' H.data).length - 2))),
         String.mk (joinChar '.'
           ((splitChar '.' H.data).drop ((splitChar '.' H.data).length - 2)))] ∧
      (load_cookies_domains H).Nodup ∧
      String.mk (joinChar '.'
        ((splitChar '.' H.data).drop ((splitChar '.' H.data).length - 2))) ≠ H) := by
  have main : ∀ k : Nat, 0 < k → k < (splitChar '.' H.data).length →
      domainsGo H.data = [H.data, '.' :: H.data,
        '.' :: joinChar '.' ((splitChar '.' H.data).drop k),
        joinChar '.' ((splitChar '.' H.data).drop k)] →
      load_cookies_domains H =
        [H, String.mk ('.' :: H.data),
         String.mk ('.' :: joinChar '.' ((splitChar '.' H.data).drop k)),
         String.mk (joinChar '.' ((splitChar '.' H.data).drop k))] ∧
      (load_cookies_domains H).Nodup ∧
      String.mk (joinChar '.' ((splitChar '.' H.data).drop k)) ≠ H := by
    intro k hk hklt hdg
    have hPL : (joinChar '.' ((splitChar '.' H.data).drop k)).length + 2 ≤
        (joinChar '.' (splitChar '.' H.data)).length :=
      drop_join_length _ k hk hklt hlab
    rw [joinChar_splitChar] at hPL
    have hmain : load_cookies_domains H =
        [H, String.mk ('.' :: H.data),
         String.mk ('.' :: joinChar '.' ((splitChar '.' H.data).drop k)),
         String.mk (joinChar '.' ((splitChar '.' H.data).drop k))] := by
      unfold load_cookies_domains
      rw [hdg]
      rfl
    refine ⟨hmain, ?_, mk_ne_of_length (by omega)⟩
    rw [hmain]
    have n1 : H ≠ String.mk ('.' :: H.data) :=
      mk_ne_of_length (by simp only [List.length_cons]; omega)
    have n2 : H ≠ String.mk ('.' :: joinChar '.' ((splitChar '.' H.data).drop k)) :=
      mk_ne_of_length (by simp only [List.length_cons]; omega)
    have n3 : H ≠ String.mk (joinChar '.' ((splitChar '.' H.data).drop k)) :=
      mk_ne_of_length (by omega)
    have n4 : String.mk ('.' :: H.data) ≠
        String.mk ('.' :: joinChar '.' ((splitChar '.' H.data).drop k)) :=
      mk_ne_of_length (by simp only [List.length_cons]; omega)
    have n5 : String.mk ('.' :: H.data) ≠
        String.mk (joinChar '.' ((splitChar '.' H.data).drop k)) :=
      mk_ne_of_length (by simp only [List.length_cons]; omega)
    have n6 : String.mk ('.' :: joinChar '.' ((splitChar '.' H.data).drop k)) ≠
        String.mk (joinChar '.' ((splitChar '.' H.data).drop k)) :=
      mk_ne_of_length (by simp only [List.length_cons]; omega)
    simp [List.nodup_cons, n1, n2, n3, n4, n5, n6]
  constructor
  · intro h3 htld
    have hPL : (joinChar '.'
        ((splitChar '.' H.data).drop ((splitChar '.' H.data).length - 3))).length + 2 ≤
        (joinChar '.' (splitChar '.' H.data)).length :=
      drop_join_length _ _ (by omega) (by omega) hlab
    rw [joinChar_splitChar] at hPL
    have hned : joinChar '.'
        ((splitChar '.' H.data).drop ((splitChar '.' H.data).length - 3)) ≠ H.data := by
      intro he
      rw [he] at hPL
      omega
    exact main _ (by omega) (by omega) (domainsGo_case_tld H.data h3 htld hned)
  · intro h2 hcond
    have hPL : (joinChar '.'
        ((splitChar '.' H.data).drop ((splitChar '.' H.data).length - 2))).length + 2 ≤
        (joinChar '.' (splitChar '.' H.data)).length :=
      drop_join_length _ _ (by omega) (by omega) hlab
    rw [joinChar_splitChar] at hPL
    have hned : joinChar '.'
        ((splitChar '.' H.data).drop ((splitChar '.' H.data).length - 2)) ≠ H.data := by
      intro he
      rw [he] at hPL
      omega
    exact main _ (by omega) (by omega) (domainsGo_case_two H.data h2 hcond hned)

/-- C3 witness: the amended theorem applied to the production host,
which has four labels over the known suffix "org.uk". -/
theorem c3_amended_witness :
    load_cookies_domains "whatson.bfi.org.uk" =
      ["whatson.bfi.org.uk", ".whatson.bfi.org.uk", ".bfi.org.uk", "bfi.org.uk"] ∧
    (load_cookies_domains "whatson.bfi.org.uk").Nodup := by
  have h := (c3_amended "whatson.bfi.org.uk" (by decide)).1 (by decide) (by decide)
  refine ⟨?_, h.2.1⟩
  rw [h.1]
  rfl
